import Mathlib

/-!
# Verification of the VeilChain offline proof-verification core

This file gives a shallow embedding of `src/sdk/python/veilchain/verify.py`
(and the data model of `types.py`) and proves the specification claims about
it.  Bytes are modelled as `List Nat` (each entry < 256), Python `str` as
Lean `String`, and a Python function that may raise becomes an
`Except String` value whose error carries the exception message.
-/

namespace Veilchain

/-! ## SHA-256 over byte lists (the `hashlib.sha256(...).hexdigest()` primitive) -/

/-- 2^32, the word modulus for SHA-256 arithmetic. -/
def M32 : Nat := 4294967296

/-- Right rotation of a 32-bit word (input assumed < 2^32). -/
def rotr32 (n x : Nat) : Nat := ((x >>> n) ||| (x <<< (32 - n))) % M32

def xor3 (a b c : Nat) : Nat := (a ^^^ b) ^^^ c

def bigSigma0 (x : Nat) : Nat := xor3 (rotr32 2 x) (rotr32 13 x) (rotr32 22 x)

def bigSigma1 (x : Nat) : Nat := xor3 (rotr32 6 x) (rotr32 11 x) (rotr32 25 x)

def smallSigma0 (x : Nat) : Nat := xor3 (rotr32 7 x) (rotr32 18 x) (x >>> 3)

def smallSigma1 (x : Nat) : Nat := xor3 (rotr32 17 x) (rotr32 19 x) (x >>> 10)

def chFn (x y z : Nat) : Nat := (x &&& y) ^^^ ((x ^^^ 4294967295) &&& z)

def majFn (x y z : Nat) : Nat := xor3 (x &&& y) (x &&& z) (y &&& z)

/-- The 64 SHA-256 round constants (FIPS 180-4), written in decimal. -/
def Kconsts : List Nat :=
  [1116352408, 1899447441, 3049323471, 3921009573, 961987163,
   1508970993, 2453635748, 2870763221, 3624381080, 310598401,
   607225278, 1426881987, 1925078388, 2162078206, 2614888103,
   3248222580, 3835390401, 4022224774, 264347078, 604807628,
   770255983, 1249150122, 1555081692, 1996064986, 2554220882,
   2821834349, 2952996808, 3210313671, 3336571891, 3584528711,
   113926993, 338241895, 666307205, 773529912, 1294757372,
   1396182291, 1695183700, 1986661051, 2177026350, 2456956037,
   2730485921, 2820302411, 3259730800, 3345764771, 3516065817,
   3600352804, 4094571909, 275423344, 430227734, 506948616,
   659060556, 883997877, 958139571, 1322822218, 1537002063,
   1747873779, 1955562222, 2024104815, 2227730452, 2361852424,
   2428436474, 2756734187, 3204031479, 3329325298]

/-- The 8 initial hash values (FIPS 180-4), written in decimal. -/
def Hinit : List Nat :=
  [1779033703, 3144134277, 1013904242, 2773480762,
   1359893119, 2600822924, 528734635, 1541459225]

/-- SHA-256 working registers. -/
structure Regs where
  a : Nat
  b : Nat
  c : Nat
  d : Nat
  e : Nat
  f : Nat
  g : Nat
  h : Nat

/-- One SHA-256 compression round. -/
def sha256Round (r : Regs) (kw : Nat × Nat) : Regs :=
  let t1 := (r.h + bigSigma1 r.e + chFn r.e r.f r.g + kw.1 + kw.2) % M32
  let t2 := (bigSigma0 r.a + majFn r.a r.b r.c) % M32
  ⟨(t1 + t2) % M32, r.a, r.b, r.c, (r.d + t1) % M32, r.e, r.f, r.g⟩

/-- Message-schedule extension; `acc` holds the words produced so far in
reverse order (most recent first). -/
def extendW : Nat → List Nat → List Nat
  | 0, acc => acc.reverse
  | n + 1, acc =>
      let wt := (smallSigma1 (acc.getD 1 0) + acc.getD 6 0 +
                 smallSigma0 (acc.getD 14 0) + acc.getD 15 0) % M32
      extendW n (wt :: acc)

/-- Extend the 16 block words to the full 64-word schedule. -/
def extendSchedule (w16 : List Nat) : List Nat := extendW 48 w16.reverse

/-- Big-endian grouping of bytes into 32-bit words. -/
def bytesToWords : List Nat → List Nat
  | b0 :: b1 :: b2 :: b3 :: rest =>
      (((b0 * 256 + b1) * 256 + b2) * 256 + b3) :: bytesToWords rest
  | _ => []

/-- Split a list into consecutive chunks of 64 elements (the last chunk may be
shorter); the first argument is structural fuel, always called with the
list's length so the fallback case is unreachable. -/
def chunksFuel {α : Type} : Nat → List α → List (List α)
  | _, [] => []
  | 0, l => [l]
  | n + 1, x :: xs => ((x :: xs).take 64) :: chunksFuel n ((x :: xs).drop 64)

/-- Consecutive 64-element chunks of a list (`s[i : i + 64]` for
`i in range(0, len(s), 64)`). -/
def chunks64 {α : Type} (l : List α) : List (List α) := chunksFuel l.length l

/-- Compress one 64-byte block into the running hash state. -/
def processBlock (hs : List Nat) (block : List Nat) : List Nat :=
  let w := extendSchedule (bytesToWords block)
  let r0 : Regs := ⟨hs.getD 0 0, hs.getD 1 0, hs.getD 2 0, hs.getD 3 0,
                    hs.getD 4 0, hs.getD 5 0, hs.getD 6 0, hs.getD 7 0⟩
  let r := (Kconsts.zip w).foldl sha256Round r0
  [(hs.getD 0 0 + r.a) % M32, (hs.getD 1 0 + r.b) % M32,
   (hs.getD 2 0 + r.c) % M32, (hs.getD 3 0 + r.d) % M32,
   (hs.getD 4 0 + r.e) % M32, (hs.getD 5 0 + r.f) % M32,
   (hs.getD 6 0 + r.g) % M32, (hs.getD 7 0 + r.h) % M32]

/-- The 8-byte big-endian encoding of the message bit length. -/
def lenBytes (n : Nat) : List Nat :=
  [(n >>> 56) % 256, (n >>> 48) % 256, (n >>> 40) % 256, (n >>> 32) % 256,
   (n >>> 24) % 256, (n >>> 16) % 256, (n >>> 8) % 256, n % 256]

/-- SHA-256 padding: append `0x80`, zero bytes to 56 mod 64, then the
64-bit big-endian bit length. -/
def padMessage (m : List Nat) : List Nat :=
  let L := m.length
  let z := (120 - ((L + 1) % 64)) % 64
  m ++ [128] ++ List.replicate z 0 ++ lenBytes (L * 8)

/-- The eight 32-bit words of the SHA-256 digest of a byte list. -/
def sha256Words (msg : List Nat) : List Nat :=
  (chunks64 (padMessage msg)).foldl processBlock Hinit

/-- The lowercase hex character for a nibble value. -/
def nibbleChar (n : Nat) : Char :=
  if n < 10 then Char.ofNat (48 + n) else Char.ofNat (87 + n)

/-- The `k` low-order nibbles of `n` as big-endian lowercase hex characters. -/
def toHexChars (n : Nat) : Nat → List Char
  | 0 => []
  | k + 1 => nibbleChar ((n >>> (4 * k)) % 16) :: toHexChars n k

/-- The 64 hex characters of a digest given as eight 32-bit words. -/
def digestChars (ws : List Nat) : List Char :=
  (ws.map (fun w => toHexChars w 8)).flatten

/-- `hashlib.sha256(data).hexdigest()`: SHA-256 of a byte list as a
64-character lowercase hex string. -/
def _sha256 (data : List Nat) : String :=
  String.mk (digestChars (sha256Words data))

/-! ## UTF-8 encoding (`str.encode("utf-8")`) -/

/-- UTF-8 encoding of a single character. -/
def utf8Char (c : Char) : List Nat :=
  let n := c.toNat
  if n < 128 then [n]
  else if n < 2048 then [192 + n / 64, 128 + n % 64]
  else if n < 65536 then [224 + n / 4096, 128 + (n / 64) % 64, 128 + n % 64]
  else [240 + n / 262144, 128 + (n / 4096) % 64, 128 + (n / 64) % 64, 128 + n % 64]

/-- UTF-8 encoding of a string as a byte list. -/
def utf8 (s : String) : List Nat := (s.toList.map utf8Char).flatten

/-! ## Hex decoding (`bytes.fromhex`) -/

/-- The value of a hexadecimal digit character, if it is one.
`bytes.fromhex` accepts both lowercase and uppercase digits. -/
def hexVal? (c : Char) : Option Nat :=
  if '0' ≤ c ∧ c ≤ '9' then some (c.toNat - 48)
  else if 'a' ≤ c ∧ c ≤ 'f' then some (c.toNat - 87)
  else if 'A' ≤ c ∧ c ≤ 'F' then some (c.toNat - 55)
  else none

/-- The `ValueError` message raised by `bytes.fromhex` on bad input. -/
def hexErrMsg (pos : Nat) : String :=
  "non-hexadecimal number found in fromhex() arg at position " ++ toString pos

/-- Worker for `bytes.fromhex`: skips spaces between byte pairs, reads two
hex digits per byte, and reports the first offending position. -/
def fromhexAux : List Char → Nat → List Nat → Except String (List Nat)
  | [], _, acc => Except.ok acc.reverse
  | c :: rest, pos, acc =>
    if c = ' ' then fromhexAux rest (pos + 1) acc
    else
      match hexVal? c with
      | none => Except.error (hexErrMsg pos)
      | some hi =>
        match rest with
        | [] => Except.error (hexErrMsg (pos + 1))
        | c2 :: rest2 =>
          match hexVal? c2 with
          | none => Except.error (hexErrMsg (pos + 1))
          | some lo => fromhexAux rest2 (pos + 2) ((hi * 16 + lo) :: acc)

/-- `_hex_to_bytes` from `verify.py`: `bytes.fromhex(hex_str)`, with a raised
`ValueError` modelled as `Except.error` carrying its message. -/
def _hex_to_bytes (hex_str : String) : Except String (List Nat) :=
  fromhexAux hex_str.toList 0 []

/-! ## Data model (`types.py`) -/

/-- `Literal["left", "right"]`, the direction of a sibling hash. -/
inductive Direction : Type
  | left : Direction
  | right : Direction
deriving DecidableEq, Repr

/-- `MerkleProof` from `types.py`. -/
structure MerkleProof : Type where
  leaf : String
  index : Int
  proof : List String
  directions : List Direction
  root : String
deriving DecidableEq, Repr

/-- `VerifyProofResult` from `types.py`; `proofLength` is the
`proof_length` field (alias `proofLength`). -/
structure VerifyProofResult : Type where
  valid : Bool
  leaf : String
  root : String
  index : Int
  proofLength : Nat
  error : Option String
deriving DecidableEq, Repr

/-- `CompactProof` from `types.py`. -/
structure CompactProof : Type where
  v : Int
  l : String
  r : String
  i : Int
  p : String
  d : String
deriving DecidableEq, Repr

/-- `DataVerifyResult` from `verify.py` (extends `VerifyProofResult` with
`data_match`), modelled as a flat structure. -/
structure DataVerifyResult : Type where
  valid : Bool
  data_match : Bool
  leaf : String
  root : String
  index : Int
  proofLength : Nat
  error : Option String
deriving DecidableEq, Repr

/-! ## `verify.py`: hashing helpers and the proof verifier -/

/-- `_hash_pair` from `verify.py`: SHA-256 of the decoded bytes of `left`
followed by the decoded bytes of `right`; a hex-decoding `ValueError`
propagates as `Except.error`. -/
def _hash_pair (left right : String) : Except String String := do
  let a ← _hex_to_bytes left
  let b ← _hex_to_bytes right
  Except.ok (_sha256 (a ++ b))

/-- The recomputation loop of `verify_proof`: fold over the zipped
`(sibling_hash, direction)` pairs, combining on the side the direction
names. -/
def compute_root (current : String) : List (String × Direction) → Except String String
  | [] => Except.ok current
  | (sib, Direction.left) :: rest => do
      let next ← _hash_pair sib current
      compute_root next rest
  | (sib, Direction.right) :: rest => do
      let next ← _hash_pair current sib
      compute_root next rest

/-- `verify_proof` from `verify.py`.  The Python guards
`not proof.leaf or len(proof.leaf) != 64` reduce to a length test (an empty
string has length 0), and the `proof.leaf or ""` / `proof.index or 0` /
`len(proof.proof) if proof.proof else 0` fallbacks in the error branches are
the identity on the corresponding field values, so each branch just echoes
the input fields.  The `try/except` around the body corresponds to the
`Except.error` branch of `compute_root`, the only fallible step. -/
def verify_proof (proof : MerkleProof) : VerifyProofResult :=
  if proof.leaf.length ≠ 64 then
    { valid := false, leaf := proof.leaf, root := proof.root,
      index := proof.index, proofLength := proof.proof.length,
      error := some "Invalid leaf hash: must be 64 character hex string" }
  else if proof.root.length ≠ 64 then
    { valid := false, leaf := proof.leaf, root := proof.root,
      index := proof.index, proofLength := proof.proof.length,
      error := some "Invalid root hash: must be 64 character hex string" }
  else if proof.proof.length ≠ proof.directions.length then
    { valid := false, leaf := proof.leaf, root := proof.root,
      index := proof.index, proofLength := proof.proof.length,
      error := some "Proof and directions arrays must have the same length" }
  else
    match compute_root proof.leaf (proof.proof.zip proof.directions) with
    | Except.ok current =>
        { valid := current == proof.root, leaf := proof.leaf, root := proof.root,
          index := proof.index, proofLength := proof.proof.length,
          error := if current == proof.root then none
                   else some "Computed root does not match expected root" }
    | Except.error e =>
        { valid := false, leaf := proof.leaf, root := proof.root,
          index := proof.index, proofLength := proof.proof.length,
          error := some e }

/-! ## `verify.py`: compact codec -/

/-- `"left" if d == "0" else "right"`. -/
def charToDir (c : Char) : Direction := if c = '0' then Direction.left else Direction.right

/-- `"0" if d == "left" else "1"`. -/
def dirToChar (d : Direction) : Char :=
  match d with
  | Direction.left => '0'
  | Direction.right => '1'

/-- `parse_compact_proof` from `verify.py`: split `compact.p` into
64-character chunks, map the bitstring to directions, copy the rest. -/
def parse_compact_proof (compact : CompactProof) : MerkleProof :=
  { leaf := compact.l,
    index := compact.i,
    proof := (chunks64 compact.p.toList).map String.mk,
    directions := compact.d.toList.map charToDir,
    root := compact.r }

/-- `"".join(strings)`. -/
def joinStrings : List String → String
  | [] => ""
  | s :: rest => s ++ joinStrings rest

/-- `to_compact_proof` from `verify.py`. -/
def to_compact_proof (proof : MerkleProof) : CompactProof :=
  { v := 1,
    l := proof.leaf,
    r := proof.root,
    i := proof.index,
    p := joinStrings proof.proof,
    d := String.mk (proof.directions.map dirToChar) }

/-! ## `verify.py`: data binder

Python values that can be passed to `hash_data` are modelled by `PyValue`;
`json.dumps(value, separators=(",", ":"))` is modelled by `json_dumps`
(compact separators, insertion order preserved, `ensure_ascii` escaping). -/

/-- A Python value: a string, int, bool, `None`, list, or string-keyed dict
(entries in insertion order). -/
inductive PyValue : Type
  | str (s : String)
  | int (n : Int)
  | bool (b : Bool)
  | none
  | list (xs : List PyValue)
  | dict (entries : List (String × PyValue))

/-- `isinstance(data, str)`. -/
def isStr : PyValue → Bool
  | PyValue.str _ => true
  | _ => false

/-- JSON escaping of one character as `json.dumps` does with the default
`ensure_ascii=True`: `"` and `\` escaped, control and non-ASCII characters
as `\uXXXX` (lowercase hex, surrogate pairs beyond the BMP), common
control characters via their short forms. -/
def jsonEscapeChar (c : Char) : List Char :=
  if c = '"' then ['\\', '"']
  else if c = '\\' then ['\\', '\\']
  else if c = Char.ofNat 8 then ['\\', 'b']
  else if c = Char.ofNat 9 then ['\\', 't']
  else if c = Char.ofNat 10 then ['\\', 'n']
  else if c = Char.ofNat 12 then ['\\', 'f']
  else if c = Char.ofNat 13 then ['\\', 'r']
  else if c.toNat < 32 then '\\' :: 'u' :: toHexChars c.toNat 4
  else if c.toNat < 128 then [c]
  else if c.toNat < 65536 then '\\' :: 'u' :: toHexChars c.toNat 4
  else
    ('\\' :: 'u' :: toHexChars (55296 + ((c.toNat - 65536) >>> 10)) 4) ++
    ('\\' :: 'u' :: toHexChars (56320 + ((c.toNat - 65536) % 1024)) 4)

/-- A JSON string literal: quoted, escaped. -/
def jsonString (s : String) : String :=
  String.mk ('"' :: (s.toList.map jsonEscapeChar).flatten ++ ['"'])

mutual

/-- `json.dumps(v, separators=(",", ":"))`: compact serialization with `,`
and `:` separators and no inserted whitespace, preserving input order. -/
def json_dumps : PyValue → String
  | PyValue.str s => jsonString s
  | PyValue.int n => toString n
  | PyValue.bool b => if b then "true" else "false"
  | PyValue.none => "null"
  | PyValue.list xs => "[" ++ dumpsList xs ++ "]"
  | PyValue.dict es => "\x7b" ++ dumpsDict es ++ "\x7d"

/-- Comma-joined serialization of list items. -/
def dumpsList : List PyValue → String
  | [] => ""
  | [x] => json_dumps x
  | x :: y :: rest => json_dumps x ++ "," ++ dumpsList (y :: rest)

/-- Comma-joined `key:value` serialization of dict entries. -/
def dumpsDict : List (String × PyValue) → String
  | [] => ""
  | [(k, v)] => jsonString k ++ ":" ++ json_dumps v
  | (k, v) :: e :: rest =>
      jsonString k ++ ":" ++ json_dumps v ++ "," ++ dumpsDict (e :: rest)

end

/-- `hash_data` from `verify.py`: a string is hashed directly (UTF-8 bytes),
anything else is JSON-serialized compactly first. -/
def hash_data (data : PyValue) : String :=
  match data with
  | PyValue.str s => _sha256 (utf8 s)
  | v => _sha256 (utf8 (json_dumps v))

/-- `verify_data` from `verify.py`. -/
def verify_data (data : PyValue) (expected_hash : String) : Bool :=
  hash_data data == expected_hash

/-- `verify_data_with_proof` from `verify.py`. -/
def verify_data_with_proof (data : PyValue) (proof : MerkleProof) : DataVerifyResult :=
  if hash_data data = proof.leaf then
    let pr := verify_proof proof
    { valid := pr.valid, data_match := true, leaf := pr.leaf, root := pr.root,
      index := pr.index, proofLength := pr.proofLength, error := pr.error }
  else
    { valid := false, data_match := false, leaf := proof.leaf, root := proof.root,
      index := proof.index, proofLength := proof.proof.length,
      error := some "Data hash does not match proof leaf" }

/-! ## Specification-side definitions

These follow the spec's words (not the source) and are compared with the
source-derived definitions above in the refinement theorems. -/

/-- Successful `bytes.fromhex` decoding, as an option. -/
def hexBytes? (s : String) : Option (List Nat) :=
  match _hex_to_bytes s with
  | Except.ok bs => some bs
  | Except.error _ => none

/-- The string is valid input to `bytes.fromhex`. -/
abbrev HexOk (s : String) : Prop := (hexBytes? s).isSome = true

/-- The decoded bytes of a hex string (junk `[]` if undecodable). -/
def hexGetD (s : String) : List Nat := (hexBytes? s).getD []

/-- Spec-side `hash_pair`: per the spec, "decodes `a` and `b` from hex to raw
bytes, concatenates `a`'s bytes followed by `b`'s bytes (in that literal
order, not sorted), and digests the concatenation". -/
def spec_hash_pair (a b : String) : String := _sha256 (hexGetD a ++ hexGetD b)

/-- Spec-side root recomputation: "initialize `current = leaf`; for each pair
`(sibling, direction)` in array order: if Left, `current = hash_pair(sibling,
current)`; if Right, `current = hash_pair(current, sibling)`". -/
def spec_compute (current : String) : List (String × Direction) → String
  | [] => current
  | (sib, Direction.left) :: rest => spec_compute (spec_hash_pair sib current) rest
  | (sib, Direction.right) :: rest => spec_compute (spec_hash_pair current sib) rest

/-- A hexadecimal digit character (spec-side notion used by the claims'
"64 hex characters" phrasing). -/
def isHexChar (c : Char) : Bool := (hexVal? c).isSome

/-- "Exactly 64 hex characters" (spec-side). -/
def isHex64 (s : String) : Bool := s.length == 64 && s.toList.all isHexChar

/-! ## Concrete inputs used by witnesses and counterexamples -/

/-- 64 `'a'` characters: a well-formed lowercase hex digest. -/
def hexA : String := "aaaaaaaaaaaaaaaaaaaaaaaaaaaaaaaaaaaaaaaaaaaaaaaaaaaaaaaaaaaaaaaa"

/-- 64 `'b'` characters: a well-formed lowercase hex digest. -/
def hexB : String := "bbbbbbbbbbbbbbbbbbbbbbbbbbbbbbbbbbbbbbbbbbbbbbbbbbbbbbbbbbbbbbbb"

/-- 64 `'c'` characters: a well-formed lowercase hex digest. -/
def hexC : String := "cccccccccccccccccccccccccccccccccccccccccccccccccccccccccccccccc"

/-- 64 `'z'` characters: 64 characters long but not hexadecimal. -/
def nonHexZ : String := "zzzzzzzzzzzzzzzzzzzzzzzzzzzzzzzzzzzzzzzzzzzzzzzzzzzzzzzzzzzzzzzz"

/-- A proof with one left sibling and well-formed hex fields. -/
def proofOneStep : MerkleProof :=
  { leaf := hexA, index := 5, proof := [hexB], directions := [Direction.left],
    root := hexC }

/-- A proof whose fields pass the length checks but whose leaf is not
decodable hex, so recomputation raises inside the loop. -/
def proofBadHex : MerkleProof :=
  { leaf := nonHexZ, index := 0, proof := [hexA], directions := [Direction.left],
    root := hexA }

/-- A compact proof with one sibling and direction bit `'1'`. -/
def compactOneStep : CompactProof :=
  { v := 1, l := hexA, r := hexC, i := 7, p := hexB, d := "1" }

/-- A compact proof whose `p` is not a multiple of 64 characters and whose
`d` length does not match: `len(p) = 2`, one ragged chunk, zero directions. -/
def compactRagged : CompactProof :=
  { v := 1, l := "aa", r := "bb", i := 0, p := "ab", d := "" }

/-- A proof whose leaf (and root) is 64 characters long but not hex, with an
empty path: both length checks pass and no hashing happens. -/
def proofZ : MerkleProof :=
  { leaf := nonHexZ, index := 0, proof := [], directions := [], root := nonHexZ }

/-- A proof with an empty (hence short) leaf. -/
def proofEmptyLeaf : MerkleProof :=
  { leaf := "", index := 0, proof := [], directions := [], root := hexA }

/-- A proof with a well-formed leaf but a short root. -/
def proofShortRoot : MerkleProof :=
  { leaf := hexA, index := 0, proof := [], directions := [], root := "ab" }

/-- A proof with well-formed hex leaf/root but mismatched path/directions
lengths. -/
def proofMismatchedLen : MerkleProof :=
  { leaf := hexA, index := 2, proof := [hexB], directions := [], root := hexA }

/-- An empty-path proof whose leaf and root are distinct 64-character
digests. -/
def proofEmptyPath : MerkleProof :=
  { leaf := hexA, index := 3, proof := [], directions := [], root := hexB }

/-- The dict `{"vote": "yes"}` from the spec's concrete scenario. -/
def voteObj : PyValue := PyValue.dict [("vote", PyValue.str "yes")]

/-! ## Helper lemmas: SHA-256 hex output always decodes -/

theorem hexVal_nibbleChar : ∀ m, m < 16 → hexVal? (nibbleChar m) = some m := by decide

theorem hexVal_space : hexVal? ' ' = none := by decide

theorem fromhexAux_ok : ∀ (n : Nat) (cs : List Char), cs.length ≤ n →
    (∀ c ∈ cs, ∃ m, m < 16 ∧ c = nibbleChar m) → cs.length % 2 = 0 →
    ∀ (pos : Nat) (acc : List Nat), ∃ bs, fromhexAux cs pos acc = Except.ok bs := by
  intro n
  induction n with
  | zero =>
      intro cs hlen _ _ pos acc
      have hnil : cs = [] := List.eq_nil_of_length_eq_zero (Nat.le_zero.mp hlen)
      subst hnil
      exact ⟨acc.reverse, rfl⟩
  | succ n ih =>
      intro cs hlen hnib heven pos acc
      cases cs with
      | nil => exact ⟨acc.reverse, rfl⟩
      | cons c1 cs1 =>
        cases cs1 with
        | nil => simp at heven
        | cons c2 rest =>
          obtain ⟨m1, hm1, hc1⟩ := hnib c1 (by simp)
          obtain ⟨m2, hm2, hc2⟩ := hnib c2 (by simp)
          have h1 : hexVal? c1 = some m1 := by rw [hc1]; exact hexVal_nibbleChar m1 hm1
          have h2 : hexVal? c2 = some m2 := by rw [hc2]; exact hexVal_nibbleChar m2 hm2
          have hns : ¬ (c1 = ' ') := by
            intro h
            rw [h, hexVal_space] at h1
            exact Option.noConfusion h1
          have hstep : fromhexAux (c1 :: c2 :: rest) pos acc
              = fromhexAux rest (pos + 2) ((m1 * 16 + m2) :: acc) := by
            simp [fromhexAux, hns, h1, h2]
          rw [hstep]
          refine ih rest ?_ ?_ ?_ (pos + 2) ((m1 * 16 + m2) :: acc)
          · simp at hlen
            omega
          · intro c hc
            exact hnib c (by simp [hc])
          · simp at heven
            omega

theorem toHexChars_nibbles : ∀ (k n : Nat), ∀ c ∈ toHexChars n k, ∃ m, m < 16 ∧ c = nibbleChar m := by
  intro k
  induction k with
  | zero => intro n c hc; simp [toHexChars] at hc
  | succ k ih =>
      intro n c hc
      simp only [toHexChars, List.mem_cons] at hc
      rcases hc with h | h
      · exact ⟨(n >>> (4 * k)) % 16, Nat.mod_lt _ (by norm_num), h⟩
      · exact ih n c h

theorem toHexChars_length : ∀ (k n : Nat), (toHexChars n k).length = k := by
  intro k
  induction k with
  | zero => intro n; rfl
  | succ k ih => intro n; simp [toHexChars, ih n]

theorem digestChars_nibbles (ws : List Nat) :
    ∀ c ∈ digestChars ws, ∃ m, m < 16 ∧ c = nibbleChar m := by
  intro c hc
  simp only [digestChars, List.mem_flatten, List.mem_map] at hc
  obtain ⟨l, ⟨w, _, rfl⟩, hcl⟩ := hc
  exact toHexChars_nibbles 8 w c hcl

theorem digestChars_length (ws : List Nat) :
    (digestChars ws).length = 8 * ws.length := by
  induction ws with
  | nil => rfl
  | cons w ws ih =>
      simp [digestChars] at ih ⊢
      simp [toHexChars_length, ih]
      ring

theorem sha256_decodes (bs : List Nat) :
    ∃ r, _hex_to_bytes (_sha256 bs) = Except.ok r := by
  have hnib := digestChars_nibbles (sha256Words bs)
  have heven : (digestChars (sha256Words bs)).length % 2 = 0 := by
    rw [digestChars_length]
    omega
  exact fromhexAux_ok (digestChars (sha256Words bs)).length _ (le_refl _) hnib heven 0 []

theorem hexOk_iff (s : String) : HexOk s ↔ ∃ bs, _hex_to_bytes s = Except.ok bs := by
  show (hexBytes? s).isSome = true ↔ _
  cases h : _hex_to_bytes s with
  | ok bs => simp [hexBytes?, h]
  | error e => simp [hexBytes?, h]

theorem sha256_hexOk (bs : List Nat) : HexOk (_sha256 bs) :=
  (hexOk_iff _).mpr (sha256_decodes bs)

theorem hexGetD_eq {s : String} {bs : List Nat}
    (h : _hex_to_bytes s = Except.ok bs) : hexGetD s = bs := by
  simp [hexGetD, hexBytes?, h]

theorem hash_pair_ok {a b : String} (ha : HexOk a) (hb : HexOk b) :
    _hash_pair a b = Except.ok (spec_hash_pair a b) := by
  obtain ⟨ba, hba⟩ := (hexOk_iff a).mp ha
  obtain ⟨bb, hbb⟩ := (hexOk_iff b).mp hb
  simp only [_hash_pair, hba, hbb, spec_hash_pair, hexGetD_eq hba, hexGetD_eq hbb]
  rfl

theorem spec_hash_pair_hexOk (a b : String) : HexOk (spec_hash_pair a b) :=
  sha256_hexOk _

theorem compute_root_spec : ∀ (ps : List (String × Direction)) (cur : String),
    HexOk cur → (∀ sd ∈ ps, HexOk sd.1) →
    compute_root cur ps = Except.ok (spec_compute cur ps) := by
  intro ps
  induction ps with
  | nil => intro cur _ _; rfl
  | cons sd rest ih =>
      intro cur hcur hall
      obtain ⟨sib, dir⟩ := sd
      have hsib : HexOk sib := hall (sib, dir) (by simp)
      cases dir with
      | left =>
          have h1 := hash_pair_ok hsib hcur
          have hred : compute_root cur ((sib, Direction.left) :: rest)
              = compute_root (spec_hash_pair sib cur) rest := by
            simp only [compute_root, h1]
            rfl
          rw [hred]
          simp only [spec_compute]
          exact ih (spec_hash_pair sib cur) (spec_hash_pair_hexOk sib cur)
            (fun x hx => hall x (by simp [hx]))
      | right =>
          have h1 := hash_pair_ok hcur hsib
          have hred : compute_root cur ((sib, Direction.right) :: rest)
              = compute_root (spec_hash_pair cur sib) rest := by
            simp only [compute_root, h1]
            rfl
          rw [hred]
          simp only [spec_compute]
          exact ih (spec_hash_pair cur sib) (spec_hash_pair_hexOk cur sib)
            (fun x hx => hall x (by simp [hx]))

/-! ## Claim theorems -/

/-- C1: for every proof whose leaf and root are 64-character strings, whose
path and directions have equal length, and whose leaf and sibling digests
decode from hex (the claim's algorithm is only defined for decodable
digests), `verify_proof` reports `valid = true` exactly when the spec's
fold — `current = leaf`, then `current = hash_pair(sibling, current)` for
Left and `current = hash_pair(current, sibling)` for Right in array order,
with `hash_pair` the SHA-256 hex digest of the concatenation of the decoded
bytes in that literal order — reproduces `root` under exact string
equality. -/
theorem verify_proof_fold_correct (p : MerkleProof)
    (hleaf : p.leaf.length = 64) (hroot : p.root.length = 64)
    (hlen : p.proof.length = p.directions.length)
    (hhex : HexOk p.leaf) (hsibs : ∀ s ∈ p.proof, HexOk s) :
    (verify_proof p).valid = true ↔
      spec_compute p.leaf (p.proof.zip p.directions) = p.root := by
  have hall : ∀ sd ∈ p.proof.zip p.directions, HexOk sd.1 := by
    intro sd hsd
    obtain ⟨a, b⟩ := sd
    exact hsibs a (List.of_mem_zip hsd).1
  have hcr := compute_root_spec (p.proof.zip p.directions) p.leaf hhex hall
  simp [verify_proof, hleaf, hroot, hlen, hcr]

/-- Witness for `verify_proof_fold_correct` at a one-sibling proof. -/
theorem verify_proof_fold_correct_witness :
    (verify_proof proofOneStep).valid = true ↔
      spec_compute proofOneStep.leaf
        (proofOneStep.proof.zip proofOneStep.directions) = proofOneStep.root :=
  verify_proof_fold_correct proofOneStep (by decide) (by decide) (by decide)
    (by decide) (by decide)

/-- C2: `verify_proof` is a total function into `VerifyProofResult` (the
embedding of "never raises"), and when the precondition checks pass but the
root recomputation fails internally with message `m` (a malformed hex string
slipping past the checks), the result has `valid = false` and `error`
carrying exactly that failure message. -/
theorem verify_proof_catches_internal_failure (p : MerkleProof) (m : String)
    (hleaf : p.leaf.length = 64) (hroot : p.root.length = 64)
    (hlen : p.proof.length = p.directions.length)
    (hfail : compute_root p.leaf (p.proof.zip p.directions) = Except.error m) :
    verify_proof p = { valid := false, leaf := p.leaf, root := p.root,
                       index := p.index, proofLength := p.proof.length,
                       error := some m } := by
  simp [verify_proof, hleaf, hroot, hlen, hfail]

/-- Witness for `verify_proof_catches_internal_failure`: a 64-character
non-hex leaf passes the length checks and the decoding failure message is
reported in `error`. -/
theorem verify_proof_catches_internal_failure_witness :
    verify_proof proofBadHex = { valid := false,
                                 leaf := proofBadHex.leaf,
                                 root := proofBadHex.root,
                                 index := proofBadHex.index,
                                 proofLength := proofBadHex.proof.length,
                                 error := some "non-hexadecimal number found in fromhex() arg at position 0" } :=
  verify_proof_catches_internal_failure proofBadHex
    "non-hexadecimal number found in fromhex() arg at position 0"
    (by decide) (by decide) (by decide) (by rfl)

/-- C9: the index field never influences verification: two proofs identical
except for `index` produce results identical in every field except the
echoed index, which is copied from the input. -/
theorem verify_proof_index_independent (p : MerkleProof) (i j : Int) :
    (verify_proof { p with index := i }).valid = (verify_proof { p with index := j }).valid ∧
    (verify_proof { p with index := i }).leaf = (verify_proof { p with index := j }).leaf ∧
    (verify_proof { p with index := i }).root = (verify_proof { p with index := j }).root ∧
    (verify_proof { p with index := i }).proofLength = (verify_proof { p with index := j }).proofLength ∧
    (verify_proof { p with index := i }).error = (verify_proof { p with index := j }).error ∧
    (verify_proof { p with index := i }).index = i ∧
    (verify_proof { p with index := j }).index = j := by
  by_cases h1 : p.leaf.length = 64
  · by_cases h2 : p.root.length = 64
    · by_cases h3 : p.proof.length = p.directions.length
      · cases hcr : compute_root p.leaf (p.proof.zip p.directions) with
        | ok v => simp [verify_proof, h1, h2, h3, hcr]
        | error e => simp [verify_proof, h1, h2, h3, hcr]
      · simp [verify_proof, h1, h2, h3]
    · simp [verify_proof, h1, h2]
  · simp [verify_proof, h1]

/-- C10: a zero-sibling proof with 64-character leaf and root is not
rejected as malformed: no hashing happens, `proofLength = 0`, and the result
is valid exactly when leaf equals root by string equality. -/
theorem verify_proof_empty_path (p : MerkleProof)
    (hp : p.proof = []) (hd : p.directions = [])
    (hleaf : p.leaf.length = 64) (hroot : p.root.length = 64) :
    (verify_proof p).proofLength = 0 ∧
      ((verify_proof p).valid = true ↔ p.leaf = p.root) := by
  simp [verify_proof, hp, hd, hleaf, hroot, compute_root]

/-- Witness for `verify_proof_empty_path` at an empty-path proof with
distinct leaf and root. -/
theorem verify_proof_empty_path_witness :
    (verify_proof proofEmptyPath).proofLength = 0 ∧
      ((verify_proof proofEmptyPath).valid = true ↔
        proofEmptyPath.leaf = proofEmptyPath.root) :=
  verify_proof_empty_path proofEmptyPath (by decide) (by decide) (by decide)
    (by decide)

/-- C4 counterexample: the claim fails on the code in two ways, shown at
concrete inputs.  First, a proof whose leaf is 64 characters long but not
hexadecimal (with empty path and root equal to the leaf) is accepted as
valid — the code only checks the length, never hex-ness.  Second, the
message the code produces for a short leaf is capitalized
("Invalid leaf hash: ..."), not the claim's lowercase string. -/
theorem verify_proof_leaf_check_counterexample :
    (¬ (∀ p : MerkleProof, isHex64 p.leaf = false →
        (verify_proof p).valid = false ∧
        (verify_proof p).error =
          some "invalid leaf hash: must be 64 character hex string")) ∧
    (verify_proof proofEmptyLeaf).error =
      some "Invalid leaf hash: must be 64 character hex string" := by
  constructor
  · intro h
    exact absurd (h proofZ (by decide)).1 (by decide)
  · rfl

/-- C4 amended: for every proof whose leaf is not exactly 64 characters
long, `verify_proof` returns `valid = false` with error
`"Invalid leaf hash: must be 64 character hex string"`; if the leaf is 64
characters long but the root is not, it returns `valid = false` with error
`"Invalid root hash: must be 64 character hex string"`.  The leaf check
runs first and short-circuits, as the `if` in the conclusion shows. -/
theorem verify_proof_length_checks (p : MerkleProof)
    (h : p.leaf.length ≠ 64 ∨ p.root.length ≠ 64) :
    (verify_proof p).valid = false ∧
    (verify_proof p).error =
      some (if p.leaf.length ≠ 64 then "Invalid leaf hash: must be 64 character hex string"
            else "Invalid root hash: must be 64 character hex string") := by
  by_cases h1 : p.leaf.length = 64
  · rcases h with h | h
    · exact absurd h1 h
    · simp [verify_proof, h1, h]
  · simp [verify_proof, h1]

/-- Witness for `verify_proof_length_checks` at a proof with a valid leaf
and a short root. -/
theorem verify_proof_length_checks_witness :
    (verify_proof proofShortRoot).valid = false ∧
    (verify_proof proofShortRoot).error =
      some (if proofShortRoot.leaf.length ≠ 64 then "Invalid leaf hash: must be 64 character hex string"
            else "Invalid root hash: must be 64 character hex string") :=
  verify_proof_length_checks proofShortRoot (Or.inr (by decide))

/-- C5: the code performs no validation in `parse_compact_proof`: at a
compact proof whose concatenated path has length 2 (not a multiple of 64)
and whose bitstring is empty, it does not fail and silently returns a
`MerkleProof` whose path (one ragged 2-character chunk) and directions
(empty) have different lengths. -/
theorem parse_compact_proof_no_validation :
    compactRagged.p.length % 64 ≠ 0 ∧
    (parse_compact_proof compactRagged).proof = ["ab"] ∧
    (parse_compact_proof compactRagged).directions = [] ∧
    (parse_compact_proof compactRagged).proof.length ≠
      (parse_compact_proof compactRagged).directions.length := by
  refine ⟨by decide, by decide, by decide, by decide⟩

/-- C6 counterexample: the data-mismatch error message the code produces is
capitalized ("Data hash ..."), not the claim's lowercase string, shown at a
concrete value whose hash differs from the proof's leaf. -/
theorem verify_data_mismatch_counterexample :
    ¬ (∀ (v : PyValue) (p : MerkleProof), hash_data v ≠ p.leaf →
        (verify_data_with_proof v p).valid = false ∧
        (verify_data_with_proof v p).data_match = false ∧
        (verify_data_with_proof v p).error =
          some "data hash does not match proof leaf") := by
  intro h
  exact absurd ((h (PyValue.str "x") proofEmptyPath (by decide)).2.2) (by decide)

/-- C6 amended: `verify_data_with_proof` returns immediately with
`valid = false`, `data_match = false` and error
`"Data hash does not match proof leaf"` whenever the canonical hash of the
value differs from the proof's leaf — the result in that branch does not
depend on the Merkle path contents at all — and otherwise returns exactly
`verify_proof`'s outcome with `data_match = true`. -/
theorem verify_data_with_proof_spec (v : PyValue) (p : MerkleProof) :
    verify_data_with_proof v p =
      if hash_data v = p.leaf then
        { valid := (verify_proof p).valid, data_match := true,
          leaf := (verify_proof p).leaf, root := (verify_proof p).root,
          index := (verify_proof p).index,
          proofLength := (verify_proof p).proofLength,
          error := (verify_proof p).error }
      else
        { valid := false, data_match := false, leaf := p.leaf, root := p.root,
          index := p.index, proofLength := p.proof.length,
          error := some "Data hash does not match proof leaf" } := rfl

/-- C7 counterexample: the mismatched-length error message the code
produces is capitalized ("Proof and directions ..."), not the claim's
lowercase string, shown at a proof with one sibling and no directions. -/
theorem verify_proof_mismatch_counterexample :
    ¬ (∀ p : MerkleProof, isHex64 p.leaf = true → isHex64 p.root = true →
        p.proof.length ≠ p.directions.length →
        (verify_proof p).error =
          some "proof and directions arrays must have the same length") := by
  intro h
  exact absurd (h proofMismatchedLen (by decide) (by decide) (by decide)) (by decide)

/-- C7 amended: for every proof whose leaf and root are exactly 64 hex
characters but whose path and directions have different lengths,
`verify_proof` returns `valid = false` with error
`"Proof and directions arrays must have the same length"`; the result is
given directly, with no hash recomputation. -/
theorem verify_proof_length_mismatch (p : MerkleProof)
    (hleaf : isHex64 p.leaf = true) (hroot : isHex64 p.root = true)
    (hne : p.proof.length ≠ p.directions.length) :
    verify_proof p = { valid := false, leaf := p.leaf, root := p.root,
                       index := p.index, proofLength := p.proof.length,
                       error := some "Proof and directions arrays must have the same length" } := by
  have h1 : p.leaf.length = 64 := by
    simp [isHex64] at hleaf
    exact hleaf.1
  have h2 : p.root.length = 64 := by
    simp [isHex64] at hroot
    exact hroot.1
  simp [verify_proof, h1, h2, hne]

/-- Witness for `verify_proof_length_mismatch` at a proof with one sibling
hash and an empty directions array. -/
theorem verify_proof_length_mismatch_witness :
    verify_proof proofMismatchedLen = { valid := false,
                                        leaf := proofMismatchedLen.leaf,
                                        root := proofMismatchedLen.root,
                                        index := proofMismatchedLen.index,
                                        proofLength := proofMismatchedLen.proof.length,
                                        error := some "Proof and directions arrays must have the same length" } :=
  verify_proof_length_mismatch proofMismatchedLen (by decide) (by decide) (by decide)

/-- C8: `hash_data` hashes a string input's UTF-8 bytes directly, and
hashes any non-string value via the UTF-8 bytes of its compact JSON
serialization (separators `,` and `:`, no inserted whitespace, input field
order preserved); in particular the hash of the dict `("vote", "yes")` is
the SHA-256 hex digest of the literal bytes of `\x7b"vote":"yes"\x7d`. -/
theorem hash_data_canonical :
    (∀ s : String, hash_data (PyValue.str s) = _sha256 (utf8 s)) ∧
    (∀ v : PyValue, isStr v = false →
      hash_data v = _sha256 (utf8 (json_dumps v))) ∧
    hash_data voteObj = _sha256 (utf8 "\x7b\x22vote\x22:\x22yes\x22\x7d") := by
  refine ⟨fun s => rfl, fun v hv => ?_, ?_⟩
  · cases v with
    | str s => simp [isStr] at hv
    | int n => rfl
    | bool b => rfl
    | none => rfl
    | list xs => rfl
    | dict es => rfl
  · show _sha256 (utf8 (json_dumps voteObj)) = _
    exact congrArg (fun t => _sha256 (utf8 t)) (by rfl)

/-- Witness for `hash_data_canonical` at the non-string value
`("vote", "yes")`. -/
theorem hash_data_canonical_witness :
    isStr voteObj = false ∧
    hash_data voteObj = _sha256 (utf8 (json_dumps voteObj)) :=
  ⟨by decide, hash_data_canonical.2.1 voteObj (by decide)⟩

/-! ## Codec round-trip lemmas (for C3) -/

theorem toList_mk (l : List Char) : (String.mk l).toList = l := rfl

theorem mk_toList (s : String) : String.mk s.toList = s := rfl

theorem toList_append (a b : String) :
    (a ++ b).toList = a.toList ++ b.toList := rfl

theorem mk_append (a b : List Char) :
    String.mk a ++ String.mk b = String.mk (a ++ b) := rfl

theorem length_eq_toList_length (s : String) : s.length = s.toList.length := rfl

theorem toList_joinStrings : ∀ ss : List String,
    (joinStrings ss).toList = (ss.map String.toList).flatten := by
  intro ss
  induction ss with
  | nil => rfl
  | cons s rest ih =>
      show (s ++ joinStrings rest).toList = _
      rw [toList_append, ih]
      simp

theorem joinStrings_map_mk : ∀ ls : List (List Char),
    joinStrings (ls.map String.mk) = String.mk ls.flatten := by
  intro ls
  induction ls with
  | nil => rfl
  | cons l rest ih => simp [joinStrings, ih, mk_append]

theorem flatten_chunksFuel {α : Type} : ∀ (n : Nat) (l : List α),
    l.length ≤ n → (chunksFuel n l).flatten = l := by
  intro n
  induction n with
  | zero =>
      intro l hl
      have : l = [] := List.eq_nil_of_length_eq_zero (Nat.le_zero.mp hl)
      subst this
      rfl
  | succ n ih =>
      intro l hl
      cases l with
      | nil => rfl
      | cons x xs =>
          simp only [chunksFuel, List.flatten_cons]
          rw [ih ((x :: xs).drop 64) (by simp at hl ⊢; omega)]
          exact List.take_append_drop 64 (x :: xs)

theorem chunksFuel_of_blocks {α : Type} : ∀ (n : Nat) (ls : List (List α)),
    (∀ l ∈ ls, l.length = 64) → ls.flatten.length ≤ n →
    chunksFuel n ls.flatten = ls := by
  intro n
  induction n with
  | zero =>
      intro ls hall hlen
      cases ls with
      | nil => rfl
      | cons l rest =>
          have h64 : l.length = 64 := hall l (by simp)
          simp [h64] at hlen
  | succ n ih =>
      intro ls hall hlen
      cases ls with
      | nil => rfl
      | cons l rest =>
          have h64 : l.length = 64 := hall l (by simp)
          cases hc : l with
          | nil => rw [hc] at h64; simp at h64
          | cons c cs =>
              subst hc
              have hflat : ((c :: cs) :: rest).flatten = (c :: cs) ++ rest.flatten := by
                simp
              rw [hflat, List.cons_append]
              simp only [chunksFuel]
              rw [← List.cons_append]
              have htake : ((c :: cs) ++ rest.flatten).take 64 = c :: cs := by
                rw [← h64]
                exact List.take_left _ _
              have hdrop : ((c :: cs) ++ rest.flatten).drop 64 = rest.flatten := by
                rw [← h64]
                exact List.drop_left _ _
              rw [htake, hdrop]
              rw [ih rest (fun x hx => hall x (by simp [hx])) ?_]
              rw [hflat] at hlen
              simp [h64] at hlen ⊢
              omega

theorem charToDir_dirToChar : ∀ d : Direction, charToDir (dirToChar d) = d := by
  intro d
  cases d <;> rfl

/-- C3: the compact codec is lossless in both directions:
`parse_compact_proof (to_compact_proof p) = p` for every proof whose
sibling digests are each exactly 64 characters (with path and directions of
equal length), and `to_compact_proof (parse_compact_proof c) = c` for every
well-formed compact proof (version 1, bitstring of `'0'`/`'1'` characters,
`len(p) = 64 * len(d)`, hence a multiple of 64). -/
theorem compact_roundtrip (p : MerkleProof) (c : CompactProof)
    (h64 : ∀ s ∈ p.proof, s.length = 64)
    (hpl : p.proof.length = p.directions.length)
    (hv : c.v = 1)
    (hbits : ∀ ch ∈ c.d.toList, ch = '0' ∨ ch = '1')
    (hclen : c.p.length = 64 * c.d.length) :
    parse_compact_proof (to_compact_proof p) = p ∧
      to_compact_proof (parse_compact_proof c) = c := by
  constructor
  · obtain ⟨leaf, index, prf, dirs, root⟩ := p
    have hproof : (chunks64 (joinStrings prf).toList).map String.mk = prf := by
      rw [toList_joinStrings]
      unfold chunks64
      rw [chunksFuel_of_blocks _ (prf.map String.toList)
            (by
              intro l hl
              simp only [List.mem_map] at hl
              obtain ⟨s, hs, rfl⟩ := hl
              exact h64 s hs)
            (le_refl _)]
      simp only [List.map_map]
      have hcomp : (String.mk ∘ String.toList) = id := by
        funext s
        exact mk_toList s
      rw [hcomp, List.map_id]
    have hdirs : ((String.mk (dirs.map dirToChar)).toList).map charToDir = dirs := by
      rw [toList_mk, List.map_map]
      have hcomp : (charToDir ∘ dirToChar) = id := by
        funext d
        exact charToDir_dirToChar d
      rw [hcomp, List.map_id]
    have hproof2 : List.map String.mk (chunks64 (joinStrings prf).data) = prf := hproof
    have hdirs2 : List.map (charToDir ∘ dirToChar) dirs = dirs := by
      have hcomp : (charToDir ∘ dirToChar) = id := by
        funext d
        exact charToDir_dirToChar d
      rw [hcomp, List.map_id]
    simp [parse_compact_proof, to_compact_proof, hproof2, hdirs2]
  · obtain ⟨v, l, r, i, pp, d⟩ := c
    have hp2 : joinStrings ((chunks64 pp.toList).map String.mk) = pp := by
      rw [joinStrings_map_mk]
      unfold chunks64
      rw [flatten_chunksFuel _ _ (le_refl _)]
      exact mk_toList pp
    have hd2 : String.mk ((d.toList.map charToDir).map dirToChar) = d := by
      rw [List.map_map]
      have hmap : (d.toList.map (dirToChar ∘ charToDir)) = d.toList.map id := by
        apply List.map_congr_left
        intro ch hch
        rcases hbits ch hch with h | h <;> simp [h, charToDir, dirToChar]
      rw [hmap, List.map_id]
      exact mk_toList d
    have hv2 : v = 1 := hv
    have hp3 : joinStrings (List.map String.mk (chunks64 pp.data)) = pp := hp2
    have hd3 : String.mk (List.map (dirToChar ∘ charToDir) d.data) = d := by
      rw [← List.map_map]
      exact hd2
    simp [parse_compact_proof, to_compact_proof, hv2, hp3, hd3]

/-- Witness for `compact_roundtrip` at a one-sibling proof and a
well-formed one-sibling compact proof. -/
theorem compact_roundtrip_witness :
    parse_compact_proof (to_compact_proof proofOneStep) = proofOneStep ∧
      to_compact_proof (parse_compact_proof compactOneStep) = compactOneStep :=
  compact_roundtrip proofOneStep compactOneStep (by decide) (by decide)
    (by decide) (by decide) (by decide)

end Veilchain
